import Mathlib

/-!
Verification development for the miller_ecog_tools repository.

The definitions below are shallow embeddings of the Python source:
  * src/classify.py — cross-validation planning (`SubjectClassifier.make_cross_val_labels`),
    per-fold feature normalization, observation weights, the Tibshirani bias-corrected
    AUC selection and the guards of `SubjectClassifier.classify` /
    `ClassifyTH.compute_classifier`;
  * src/miller_ecog_tools/SubjectLevel/Analyses/subject_oscillation_cluster.py —
    the electrode adjacency matrix and `find_clusters_from_peaks`.

Numpy floating point arrays are modelled over ℚ (exact arithmetic); numpy boolean-mask
selection (`x[mask]`, a copying operation) and boolean-mask assignment
(`x[mask] = vals`) are modelled by `maskSelect` / `maskAssign`.  External numerical
primitives that the spec declares out of scope (scipy `zscore`/`zmap`, the sklearn
logistic-regression fit/predict, `roc_auc_score`, the `tarjan` SCC package) are taken
as function parameters.
-/

/-- Mean of a list of rationals: `np.mean` (sum divided by length; the empty list
gives 0 because division by zero is 0 in ℚ, a case no claim relies on). -/
def npMeanQ (l : List ℚ) : ℚ := l.sum / l.length

/-- Maximum of a list of rationals: `np.max`.  numpy raises on an empty array;
we return 0 there, a case no claim relies on. -/
def npMax (l : List ℚ) : ℚ :=
  match l with
  | [] => 0
  | x :: xs => xs.foldl max x

/-- First index at which a list attains its maximum: `np.argmax` (numpy documents
that the first occurrence of the maximum is returned). -/
def npArgmax (l : List ℚ) : Nat :=
  l.findIdx (fun x => decide (x = npMax l))

/-- Boolean-mask selection `x[mask]` of numpy: keep the entries at the true
positions of the mask (numpy fancy indexing, which returns a fresh copy). -/
def maskSelect {α : Type} : List Bool → List α → List α
  | b :: ms, x :: t => if b then x :: maskSelect ms t else maskSelect ms t
  | _, _ => []

/-- Boolean-mask assignment `x[mask] = vals` of numpy: replace the entries at the
true positions of the mask by the values, in order.  If the values run out the
old entry is kept (numpy would raise; no claim relies on that case). -/
def maskAssign {α : Type} : List Bool → List α → List α → List α
  | _, [], _ => []
  | [], xs, _ => xs
  | b :: ms, x :: t, vs =>
    if b then (vs.headD x) :: maskAssign ms t vs.tail
    else x :: maskAssign ms t vs

/-- Insert into a sorted list of naturals, keeping order. -/
def insertSorted (x : Nat) : List Nat → List Nat
  | [] => [x]
  | y :: ys => if x ≤ y then x :: y :: ys else y :: insertSorted x ys

/-- Embedding of `np.unique` on integer labels: the sorted list of distinct values. -/
def npUnique (l : List Nat) : List Nat :=
  l.dedup.foldr insertSorted []

/-- One behavioral event of the EventTable: session id, trial/list id, and the
task-phase/type string of the event record. -/
structure Event where
  session : Nat
  trial : Nat
  etype : String
deriving DecidableEq

/-- Renaming of raw event types to common phase names, classify.py lines 263-266:
the encoding string becomes "enc" and the recall string becomes "rec"
(`enc_str` is "CHEST" for the TH task and "WORD" otherwise, `rec_str` is
"REC" or "REC_WORD"). -/
def relabel (enc_str rec_str t : String) : String :=
  if t = enc_str then "enc" else if t = rec_str then "rec" else t

/-- The per-fold record stored in `cv_dict[fold]`, classify.py lines 274-279. -/
structure FoldMasks where
  train_bool : List Bool
  test_bool : List Bool
  train_phase : List String
  test_phase : List String
deriving DecidableEq

/-- Embedding of `SubjectClassifier.make_cross_val_labels`, classify.py lines 240-281.
Folds are keyed by session when more than one session exists, otherwise by
trial/list id.  Note: line 267 of the source computes `valid_train_inds` from
`self.test_phase` (not `self.train_phase`); the translation reproduces that. -/
def make_cross_val_labels (enc_str rec_str : String)
    (train_phase_cfg test_phase_cfg : List String)
    (events : List Event) : List (Nat × FoldMasks) :=
  let sessions := events.map Event.session
  let folds := if 1 < (npUnique sessions).length then sessions
               else events.map Event.trial
  let task_phase := events.map (fun e => relabel enc_str rec_str e.etype)
  let valid_train_inds := task_phase.map (fun x => decide (x ∈ test_phase_cfg))
  let valid_test_inds := task_phase.map (fun x => decide (x ∈ test_phase_cfg))
  (npUnique folds).map (fun fold =>
    (fold,
     { train_bool := List.zipWith (fun f v => decide (f ≠ fold) && v) folds valid_train_inds
     , test_bool := List.zipWith (fun f v => decide (f = fold) && v) folds valid_test_inds
     , train_phase := maskSelect
         (List.zipWith (fun f v => decide (f ≠ fold) && v) folds valid_train_inds) task_phase
     , test_phase := maskSelect
         (List.zipWith (fun f v => decide (f = fold) && v) folds valid_test_inds) task_phase }))

/-- The train mask as the spec states it (spec section 4.3): for fold key `k`,
train-mask = (fold-key ≠ k) AND (phase ∈ train-phases).  Stated separately so it
can be compared with the mask the source computes. -/
def spec_train_mask (train_phases : List String) (folds : List Nat)
    (task_phase : List String) (k : Nat) : List Bool :=
  List.zipWith (fun f p => decide (f ≠ k) && decide (p ∈ train_phases)) folds task_phase

/-- Rows of zeros with the shape of the given matrix; models the `np.empty`
allocations at classify.py lines 802 and 806 (fresh working buffers whose
initial contents are irrelevant because every used entry is assigned). -/
def zerosLike (m : List (List ℚ)) : List (List ℚ) :=
  m.map (fun r => r.map (fun _ => 0))

/-- Per-fold train/test normalization of `ClassifyTH.compute_classifier`,
classify.py lines 799-812.  `zscoreF` and `zmapF` stand for the scipy externals
`zscore` and `zmap` (trusted primitives per the spec).  The source assigns the
normalized test rows at positions `task_phase_train == phase` (lines 809 and 812),
i.e. the mask is taken over the TRAIN phase labels; the translation reproduces
that faithfully. -/
def normalize_fold_features
    (zscoreF : List (List ℚ) → List (List ℚ))
    (zmapF : List (List ℚ) → List (List ℚ) → List (List ℚ))
    (train_phase test_phase : List String)
    (feats_train feats_test : List (List ℚ))
    (task_phase_train task_phase_test : List String) :
    List (List ℚ) × List (List ℚ) :=
  let x_train := train_phase.foldl (fun acc phase =>
    maskAssign (task_phase_train.map (fun t => decide (t = phase))) acc
      (zscoreF (maskSelect (task_phase_train.map (fun t => decide (t = phase))) feats_train)))
    (zerosLike feats_train)
  let x_test := test_phase.foldl (fun acc phase =>
    if phase ∈ train_phase then
      maskAssign (task_phase_train.map (fun t => decide (t = phase))) acc
        (zmapF (maskSelect (task_phase_test.map (fun t => decide (t = phase))) feats_test)
               (maskSelect (task_phase_train.map (fun t => decide (t = phase))) feats_train))
    else
      maskAssign (task_phase_train.map (fun t => decide (t = phase))) acc
        (zscoreF (maskSelect (task_phase_test.map (fun t => decide (t = phase))) feats_test)))
    (zerosLike feats_test)
  (x_train, x_test)

/-- Embedding of `np.bincount` on non-negative integer labels: occurrence counts of
0 .. max value (empty list gives the empty array). -/
def np_bincount (l : List Nat) : List Nat :=
  if l.isEmpty then []
  else (List.range (l.foldr max 0 + 1)).map (fun i => l.count i)

/-- The class index of each training event, classify.py lines 815-820:
`y_ind = rec_train.astype(int)`, and when training on both phases with
encoding scaling enabled the retrieval events get classes 2/3. -/
def make_y_ind (scale_enc : Option ℚ) (train_phase : List String)
    (rec_train : List Bool) (task_phase_train : List String) : List Nat :=
  let y0 := rec_train.map (fun b => if b then 1 else 0)
  if decide (1 < train_phase.length) && scale_enc.isSome then
    List.zipWith (fun y p => if p = "rec" then y + 2 else y) y0 task_phase_train
  else y0

/-- The per-class weight vector, classify.py lines 822-830: reciprocal of the
class counts, divided by its own mean; when encoding scaling is enabled the
first two entries are rescaled and the vector renormalized. -/
def recip_freq_vec (scale_enc : Option ℚ) (train_phase : List String)
    (y_ind : List Nat) : List ℚ :=
  let recip0 := (np_bincount y_ind).map (fun (c : ℕ) => 1 / (c : ℚ))
  let recip1 := recip0.map (fun r => r / npMeanQ recip0)
  if decide (1 < train_phase.length) && scale_enc.isSome then
    let recip2 := recip1.mapIdx (fun i r => if i < 2 then scale_enc.getD 1 * r else r)
    recip2.map (fun r => r / npMeanQ recip2)
  else recip1

/-- The per-event observation weights, classify.py line 831:
`weights = recip_freq[y_ind]`. -/
def fold_weights (scale_enc : Option ℚ) (train_phase : List String)
    (y_ind : List Nat) : List ℚ :=
  y_ind.map (fun i => (recip_freq_vec scale_enc train_phase y_ind).getD i 0)

/-- Embedding of `fold_aucs.mean(axis=0)`, classify.py line 844: the per-candidate mean AUC
across folds (the table is folds × candidates). -/
def aucsOf (t : List (List ℚ)) : List ℚ :=
  (List.range (t.headD []).length).map (fun j => npMeanQ (t.map (fun row => row.getD j 0)))

/-- The bias term of classify.py line 845:
`np.mean(fold_aucs.max(axis=1) - fold_aucs[:, np.argmax(aucs)])`. -/
def biasOf (t : List (List ℚ)) : ℚ :=
  npMeanQ (t.map (fun row => npMax row - row.getD (npArgmax (aucsOf t)) 0))

/-- The bias-corrected AUC of classify.py line 846: `auc = aucs.max() - bias`. -/
def aucLosoOf (t : List (List ℚ)) : ℚ :=
  npMax (aucsOf t) - biasOf t

/-- The bias formula as literally worded by the spec (section 4.4) and claim C2:
take each fold's best-performing candidate AUC and subtract it FROM that fold's
AUC at the overall best candidate, then average across folds.  Stated here only
to be compared against `biasOf`, the formula the source computes. -/
def bias_claimed (t : List (List ℚ)) : ℚ :=
  npMeanQ (t.map (fun row => row.getD (npArgmax (aucsOf t)) 0 - npMax row))

/-- The final AUC that the spec's literal bias wording would produce. -/
def auc_claimed (t : List (List ℚ)) : ℚ :=
  npMax (aucsOf t) - bias_claimed t

/-- The default regularization value `SubjectClassifier.default_C` / `ClassifyTH.default_C` = [7.2e-4],
classify.py lines 163 and 454. -/
def default_C : List ℚ := [72 / 100000]

/-- The early guards of `SubjectClassifier.classify`, classify.py lines 287-294:
report and abort when the cross-validation plan is absent, or when multiple
regularization values are requested with single-session data.  The reported
message is the error value; the operation returns without raising. -/
def classify_guard (cross_val_dict : List (Nat × FoldMasks))
    (sessions : List Nat) (C : List ℚ) : Except String Unit :=
  if cross_val_dict.isEmpty then
    Except.error "Cross validation labels must be computed before running classifier. Use .make_cross_val_labels()"
  else if decide ((npUnique sessions).length = 1) && decide (1 < C.length) then
    Except.error "Multiple C values cannot be tested for a subject with only one session of data."
  else Except.ok ()

/-- The candidate-value selection of `ClassifyTH.compute_classifier`,
classify.py lines 776-780: single-session data reverts to the default C and
switches off leave-one-session-out mode. -/
def select_Cs (C : List ℚ) (sessions : List Nat) : List ℚ × Bool :=
  if (npUnique sessions).length = 1 then (default_C, false) else (C, true)

/-- The final AUC computation of `ClassifyTH.compute_classifier`, classify.py
lines 842-848: in loso mode the bias-corrected maximum mean AUC, otherwise
`roc_auc_score` on the pooled held-out probabilities (`rocAucF` stands for the
sklearn external). -/
def final_auc (rocAucF : List Bool → List ℚ → ℚ) (loso : Bool)
    (fold_aucs : List (List ℚ)) (recalls : List Bool)
    (test_bool : List Bool) (probs_col : List ℚ) : ℚ :=
  if loso then aucLosoOf fold_aucs
  else rocAucF (maskSelect test_bool recalls) (maskSelect test_bool probs_col)

/-- The mutable state threaded through the cross-validation loops of
`ClassifyTH.compute_classifier`: the shared feature matrix and the
preallocated `probs` (events × candidates) and `fold_aucs` (folds ×
candidates) arrays. -/
structure ClassifierState where
  feat_mat : List (List ℚ)
  probs : List (List ℚ)
  fold_aucs : List (List ℚ)

/-- Column assignment `probs[mask, c] = vals`: walk the rows, and at each true
mask position set column `c` of that row to the next value. -/
def maskAssignCol : List Bool → List (List ℚ) → List ℚ → Nat → List (List ℚ)
  | _, [], _, _ => []
  | [], rows, _, _ => rows
  | b :: ms, row :: rows, vs, c =>
    if b then (row.set c (vs.headD 0)) :: maskAssignCol ms rows vs.tail c
    else row :: maskAssignCol ms rows vs c

/-- Entry assignment `m[i, j] = v` on a matrix stored as rows. -/
def setAt2 (m : List (List ℚ)) (i j : Nat) (v : ℚ) : List (List ℚ) :=
  m.set i ((m.getD i []).set j v)

/-- The body of the inner cross-validation loop of
`ClassifyTH.compute_classifier`, classify.py lines 785-840, for one candidate
value `c` (index `c_num`) and one fold `cv` (index `cv_num`).  `fitPredictF`
stands for the sklearn LogisticRegression fit followed by `predict_proba` on
the test rows; `rocAucF` for `roc_auc_score`.  All boolean-mask selections of
the feature matrix are numpy fancy indexing, which copies; the normalized
features are written into the fresh buffers of `normalize_fold_features`.  The
state updates are the `probs[mask_test, c_num] = test_probs` and
`fold_aucs[cv_num, c_num] = ...` stores. -/
def fold_body
    (zscoreF : List (List ℚ) → List (List ℚ))
    (zmapF : List (List ℚ) → List (List ℚ) → List (List ℚ))
    (fitPredictF : ℚ → List (List ℚ) → List Bool → List ℚ → List (List ℚ) → List ℚ)
    (rocAucF : List Bool → List ℚ → ℚ)
    (scale_enc : Option ℚ) (train_phase test_phase : List String)
    (recalls : List Bool) (cv_sel : List Nat) (task_phase : List String)
    (loso : Bool) (c : ℚ) (c_num cv_num cv : Nat)
    (st : ClassifierState) : ClassifierState :=
  let train_bool := task_phase.map (fun x => decide (x ∈ train_phase))
  let test_bool := task_phase.map (fun x => decide (x ∈ test_phase))
  let mask_cv := cv_sel.map (fun s => decide (s ≠ cv))
  let mask_train := List.zipWith and mask_cv train_bool
  let feats_train := maskSelect mask_train st.feat_mat
  let task_phase_train := maskSelect mask_train task_phase
  let rec_train := maskSelect mask_train recalls
  let mask_test := List.zipWith and (mask_cv.map not) test_bool
  let task_phase_test := maskSelect mask_test task_phase
  let feats_test := maskSelect mask_test st.feat_mat
  let xs := normalize_fold_features zscoreF zmapF train_phase test_phase
              feats_train feats_test task_phase_train task_phase_test
  let y_ind := make_y_ind scale_enc train_phase rec_train task_phase_train
  let weights := fold_weights scale_enc train_phase y_ind
  let test_probs := fitPredictF c xs.1 rec_train weights xs.2
  { st with
    probs := maskAssignCol mask_test st.probs test_probs c_num
    fold_aucs :=
      if loso then
        setAt2 st.fold_aucs cv_num c_num (rocAucF (maskSelect mask_test recalls) test_probs)
      else st.fold_aucs }

/-- The double loop of `ClassifyTH.compute_classifier` lines 782-840: for each
candidate value and each cross-validation fold, run the fold body. -/
def run_candidate_loop
    (zscoreF : List (List ℚ) → List (List ℚ))
    (zmapF : List (List ℚ) → List (List ℚ) → List (List ℚ))
    (fitPredictF : ℚ → List (List ℚ) → List Bool → List ℚ → List (List ℚ) → List ℚ)
    (rocAucF : List Bool → List ℚ → ℚ)
    (scale_enc : Option ℚ) (train_phase test_phase : List String)
    (recalls : List Bool) (cv_sel : List Nat) (task_phase : List String)
    (loso : Bool) (Cs : List ℚ) (uniq_cv : List Nat)
    (st : ClassifierState) : ClassifierState :=
  Cs.enum.foldl (fun s1 p =>
    uniq_cv.enum.foldl (fun s2 q =>
      fold_body zscoreF zmapF fitPredictF rocAucF scale_enc train_phase test_phase
        recalls cv_sel task_phase loso p.2 p.1 q.1 q.2 s2) s1) st

/-- Squared euclidean distance between two 3-D electrode coordinates. -/
def euclid_dist_sq (p q : ℚ × ℚ × ℚ) : ℚ :=
  (p.1 - q.1) ^ 2 + (p.2.1 - q.2.1) ^ 2 + (p.2.2 - q.2.2) ^ 2

/-- The hemisphere separation step of subject_oscillation_cluster.py lines 73-74:
`xyz[xyz[:, 0] < 0, 0] -= 100`. -/
def hemi_shift (xyz : List (ℚ × ℚ × ℚ)) : List (ℚ × ℚ × ℚ) :=
  xyz.map (fun p => if p.1 < 0 then (p.1 - 100, p.2.1, p.2.2) else p)

/-- Entry (i, j) of `near_adj_matr`, subject_oscillation_cluster.py line 78:
`(elec_dists < self.min_elec_dist) & (elec_dists > 0.)`, where `elec_dists` is
the matrix of pairwise euclidean distances `squareform(pdist(xyz))`. -/
def near_adj_matr (xyz : List (ℚ × ℚ × ℚ)) (min_elec_dist : ℚ) (i j : Nat) : Prop :=
  Real.sqrt ((euclid_dist_sq (xyz.getD i (0, 0, 0)) (xyz.getD j (0, 0, 0)) : ℚ) : ℝ)
      < (min_elec_dist : ℝ)
  ∧ Real.sqrt ((euclid_dist_sq (xyz.getD i (0, 0, 0)) (xyz.getD j (0, 0, 0)) : ℚ) : ℝ) > 0

/-- Embedding of `np.arange(self.freqs[0], self.freqs[-1] + .001, 1)`,
subject_oscillation_cluster.py line 116. -/
def window_centers (freqs : List ℚ) : List ℚ :=
  (List.range (Int.ceil (freqs.getLastD 0 + 1 / 1000 - freqs.headD 0)).toNat).map
    (fun k => freqs.headD 0 + k)

/-- Embedding of `window_bins`, subject_oscillation_cluster.py lines 117-118: for each window
center, which frequency bins fall within ± cluster_freq_range / 2. -/
def window_bins (freqs : List ℚ) (cluster_freq_range : ℚ) : List (List Bool) :=
  (window_centers freqs).map (fun x =>
    freqs.map (fun f =>
      decide (x - cluster_freq_range / 2 ≤ f) && decide (f ≤ x + cluster_freq_range / 2)))

/-- Embedding of `peaks[:, ~allowed_elecs] = False`, subject_oscillation_cluster.py line 124. -/
def masked_peaks (peaks : List (List Bool)) (allowed : List Bool) : List (List Bool) :=
  peaks.map (fun row => List.zipWith and row allowed)

/-- Embedding of `binned_peaks`, subject_oscillation_cluster.py line 127: per window and
channel, whether any in-window frequency bin has a peak. -/
def binned_peaks (peaks : List (List Bool)) (allowed : List Bool)
    (freqs : List ℚ) (cluster_freq_range : ℚ) : List (List Bool) :=
  let mp := masked_peaks peaks allowed
  (window_bins freqs cluster_freq_range).map (fun wb =>
    (List.range allowed.length).map (fun ch =>
      (List.zip wb mp).any (fun p => p.1 && p.2.getD ch false)))

/-- Modelled from the spec: `my_local_max` lives in
miller_ecog_tools/SubjectLevel/par_funcs.py, which is not under src/.  Spec
section 4.2 step 1 asks for the local maxima ("peaks of peaks") of the 1-D
peak-count curve over windows; modelled as the indices whose count strictly
exceeds both neighbors, a missing neighbor counting as 0. -/
def my_local_max (v : List Nat) : List Nat :=
  (List.range v.length).filter (fun i =>
    decide ((if i = 0 then 0 else v.getD (i - 1) 0) < v.getD i 0) &&
    decide (v.getD (i + 1) 0 < v.getD i 0))

/-- Restriction of the adjacency matrix to the electrodes with a peak in the
current window, subject_oscillation_cluster.py lines 132-134:
`near_this_ev[~keep] = False; near_this_ev[:, ~keep] = False`. -/
def near_this_ev (adj : List (List Bool)) (keep : List Bool) : List (List Bool) :=
  List.zipWith (fun row k =>
    if k then List.zipWith and row keep else row.map (fun _ => false)) adj keep

/-- The adjacency-list graph fed to tarjan, subject_oscillation_cluster.py lines
137-139: `graph[elec] = np.where(row)[0]`. -/
def graph_of (adj : List (List Bool)) : List (List Nat) :=
  adj.map (fun row => (List.range row.length).filter (fun j => row.getD j false))

/-- The size-filtered cluster list at window index `w`,
subject_oscillation_cluster.py lines 131-143: run the tarjan SCC decomposition
(external package, passed in as `tarjanF`) on the restricted graph and keep the
components with at least `min_num_elecs` members. -/
def good_clusters_at (tarjanF : List (List Nat) → List (List Nat))
    (peaks : List (List Bool)) (adj : List (List Bool)) (allowed : List Bool)
    (min_num_elecs : Nat) (freqs : List ℚ) (cluster_freq_range : ℚ)
    (w : Nat) : List (List Nat) :=
  let bp := (binned_peaks peaks allowed freqs cluster_freq_range).getD w []
  (tarjanF (graph_of (near_this_ev adj bp))).filter
    (fun cl => decide (min_num_elecs ≤ cl.length))

/-- Per-electrode precise peak frequencies of a cluster,
subject_oscillation_cluster.py lines 150-152: for each member electrode, the
mean of the in-window frequencies at which it has a peak. -/
def elec_freqs_of (peaks : List (List Bool)) (allowed : List Bool)
    (freqs : List ℚ) (cluster_freq_range : ℚ) (w : Nat)
    (cluster : List Nat) : List ℚ :=
  let wb := (window_bins freqs cluster_freq_range).getD w []
  let rows := maskSelect wb (masked_peaks peaks allowed)
  let sel_freqs := maskSelect wb freqs
  cluster.map (fun e => npMeanQ (maskSelect (rows.map (fun r => r.getD e false)) sel_freqs))

/-- The value stored under one center frequency of the cluster dictionary,
subject_oscillation_cluster.py line 121. -/
structure ClusterInfo where
  elecs : List (List Nat)
  elec_freqs : List (List ℚ)
  mean_freqs : List ℚ
deriving DecidableEq

/-- The `all_clusters` dictionary of `find_clusters_from_peaks` after the loop
over peak windows, subject_oscillation_cluster.py lines 120-154, BEFORE the
final filtering: one entry per window center, filled in only at the "peaks of
peaks" windows. -/
def all_clusters_unfiltered (tarjanF : List (List Nat) → List (List Nat))
    (peaks : List (List Bool)) (adj : List (List Bool)) (allowed : List Bool)
    (min_num_elecs : Nat) (freqs : List ℚ) (cluster_freq_range : ℚ) :
    List (ℚ × ClusterInfo) :=
  let centers := window_centers freqs
  let pf := my_local_max
    ((binned_peaks peaks allowed freqs cluster_freq_range).map (fun row => row.count true))
  (List.range centers.length).map (fun w =>
    (centers.getD w 0,
     if w ∈ pf then
       let cls := good_clusters_at tarjanF peaks adj allowed min_num_elecs freqs
                    cluster_freq_range w
       { elecs := cls
       , elec_freqs := cls.map (elec_freqs_of peaks allowed freqs cluster_freq_range w)
       , mean_freqs := cls.map (fun cl =>
           npMeanQ (elec_freqs_of peaks allowed freqs cluster_freq_range w cl)) }
     else { elecs := [], elec_freqs := [], mean_freqs := [] }))

/-- Embedding of `find_clusters_from_peaks`, subject_oscillation_cluster.py lines 92-157:
the cluster dictionary restricted to the entries that are filled in
(line 157: `dict((k, v) for k, v in all_clusters.items() if all_clusters[k]['elecs'])`). -/
def find_clusters_from_peaks (tarjanF : List (List Nat) → List (List Nat))
    (peaks : List (List Bool)) (adj : List (List Bool)) (allowed : List Bool)
    (min_num_elecs : Nat) (freqs : List ℚ) (cluster_freq_range : ℚ) :
    List (ℚ × ClusterInfo) :=
  (all_clusters_unfiltered tarjanF peaks adj allowed min_num_elecs freqs
    cluster_freq_range).filter (fun kv => !kv.2.elecs.isEmpty)

/-! ## Helper lemmas about the numpy-style list operations -/

theorem le_foldl_max (l : List ℚ) : ∀ b : ℚ, b ≤ l.foldl max b := by
  induction l with
  | nil => intro b; simp
  | cons x xs ih =>
    intro b
    simpa using le_trans (le_max_left b x) (ih (max b x))

theorem mem_le_foldl_max (l : List ℚ) : ∀ (b x : ℚ), x ∈ l → x ≤ l.foldl max b := by
  induction l with
  | nil => intro b x h; simp at h
  | cons y ys ih =>
    intro b x h
    rcases List.mem_cons.mp h with h | h
    · subst h
      simpa using le_trans (le_max_right b x) (le_foldl_max ys (max b x))
    · simpa using ih (max b y) x h

theorem le_npMax_of_mem {l : List ℚ} {x : ℚ} (h : x ∈ l) : x ≤ npMax l := by
  cases l with
  | nil => simp at h
  | cons y ys =>
    rcases List.mem_cons.mp h with h | h
    · subst h; exact le_foldl_max ys x
    · exact mem_le_foldl_max ys y x h

theorem foldl_max_mem (l : List ℚ) : ∀ b : ℚ, l.foldl max b ∈ b :: l := by
  induction l with
  | nil => intro b; simp
  | cons x xs ih =>
    intro b
    have h := ih (max b x)
    rcases List.mem_cons.mp h with h | h
    · rcases max_choice b x with hm | hm <;> rw [List.foldl_cons, h, hm]
      · exact List.mem_cons_self _ _
      · exact List.mem_cons_of_mem _ (List.mem_cons_self _ _)
    · exact List.mem_cons_of_mem _ (List.mem_cons_of_mem _ (by simpa using h))

theorem npMax_mem {l : List ℚ} (h : l ≠ []) : npMax l ∈ l := by
  cases l with
  | nil => exact absurd rfl h
  | cons y ys => simpa [npMax] using foldl_max_mem ys y

theorem findIdx_spec (p : ℚ → Bool) :
    ∀ l : List ℚ, (∃ x ∈ l, p x = true) →
      l.findIdx p < l.length ∧ p (l.getD (l.findIdx p) 0) = true := by
  intro l
  induction l with
  | nil => intro h; simp at h
  | cons x xs ih =>
    intro h
    by_cases hx : p x = true
    · simp [List.findIdx_cons, hx]
    · rcases h with ⟨y, hy, hpy⟩
      rcases List.mem_cons.mp hy with rfl | hy'
      · exact absurd hpy hx
      · have hrec := ih ⟨y, hy', hpy⟩
        rw [List.findIdx_cons]
        simp only [hx, cond_false]
        constructor
        · simpa using Nat.succ_lt_succ hrec.1
        · simpa using hrec.2

theorem npArgmax_spec {l : List ℚ} (h : l ≠ []) :
    npArgmax l < l.length ∧ l.getD (npArgmax l) 0 = npMax l := by
  have hm : npMax l ∈ l := npMax_mem h
  have hs := findIdx_spec (fun x => decide (x = npMax l)) l ⟨npMax l, hm, by simp⟩
  exact ⟨hs.1, of_decide_eq_true hs.2⟩

theorem sum_map_div (l : List ℚ) (m : ℚ) :
    (l.map (fun x => x / m)).sum = l.sum / m := by
  induction l with
  | nil => simp
  | cons x xs ih => simp [ih, add_div]

theorem npMeanQ_map_div (l : List ℚ) (m : ℚ) :
    npMeanQ (l.map (fun x => x / m)) = npMeanQ l / m := by
  simp only [npMeanQ, sum_map_div, List.length_map]
  rw [div_right_comm]

theorem npMeanQ_nonneg {l : List ℚ} (h : ∀ x ∈ l, 0 ≤ x) : 0 ≤ npMeanQ l :=
  div_nonneg (List.sum_nonneg h) (Nat.cast_nonneg _)

theorem npMeanQ_pos {l : List ℚ} (h : ∀ x ∈ l, 0 < x) (hne : l ≠ []) : 0 < npMeanQ l :=
  div_pos (List.sum_pos l h hne)
    (by exact_mod_cast List.length_pos.mpr hne)

theorem getD_zipWith {α β γ : Type} (f : α → β → γ) :
    ∀ (as : List α) (bs : List β) (i : Nat) (d : γ) (da : α) (db : β),
      i < as.length → i < bs.length →
      (List.zipWith f as bs).getD i d = f (as.getD i da) (bs.getD i db) := by
  intro as
  induction as with
  | nil => intro bs i d da db h1 _; simp at h1
  | cons a as ih =>
    intro bs i d da db h1 h2
    cases bs with
    | nil => simp at h2
    | cons b bs =>
      cases i with
      | zero => rfl
      | succ n =>
        simp only [List.zipWith_cons_cons, List.getD_cons_succ]
        exact ih bs n d da db (by simpa using h1) (by simpa using h2)

theorem getD_map {α β : Type} (f : α → β) :
    ∀ (l : List α) (i : Nat) (d : β) (d0 : α), i < l.length →
      (l.map f).getD i d = f (l.getD i d0) := by
  intro l
  induction l with
  | nil => intro i d d0 h; simp at h
  | cons x xs ih =>
    intro i d d0 h
    cases i with
    | zero => rfl
    | succ n =>
      simp only [List.map_cons, List.getD_cons_succ]
      exact ih n d d0 (by simpa using h)

theorem getD_mem {α : Type} :
    ∀ (l : List α) (i : Nat) (d : α), i < l.length → l.getD i d ∈ l := by
  intro l
  induction l with
  | nil => intro i d h; simp at h
  | cons x xs ih =>
    intro i d h
    cases i with
    | zero => exact List.mem_cons_self _ _
    | succ n =>
      exact List.mem_cons_of_mem _ (ih n d (by simpa using h))

theorem insertSorted_perm (x : Nat) : ∀ l : List Nat, (insertSorted x l).Perm (x :: l) := by
  intro l
  induction l with
  | nil => simp [insertSorted]
  | cons y ys ih =>
    by_cases h : x ≤ y
    · simp [insertSorted, h]
    · simp only [insertSorted, h, if_false]
      exact (ih.cons y).trans (List.Perm.swap x y ys)

theorem foldr_insertSorted_perm : ∀ l : List Nat, (l.foldr insertSorted []).Perm l := by
  intro l
  induction l with
  | nil => simp
  | cons x xs ih =>
    exact (insertSorted_perm x (xs.foldr insertSorted [])).trans (ih.cons x)

theorem npUnique_perm_dedup (l : List Nat) : (npUnique l).Perm l.dedup :=
  foldr_insertSorted_perm l.dedup

theorem npUnique_nodup (l : List Nat) : (npUnique l).Nodup :=
  ((npUnique_perm_dedup l).nodup_iff).mpr l.nodup_dedup

theorem mem_npUnique {l : List Nat} {a : Nat} : a ∈ npUnique l ↔ a ∈ l := by
  rw [(npUnique_perm_dedup l).mem_iff, List.mem_dedup]

theorem countP_eq_one_self {l : List Nat} (hn : l.Nodup) {a : Nat} (ha : a ∈ l) :
    l.countP (fun k => decide (a = k)) = 1 := by
  induction l with
  | nil => simp at ha
  | cons x xs ih =>
    rw [List.countP_cons]
    rcases List.mem_cons.mp ha with h | h
    · subst h
      have hx : a ∉ xs := (List.nodup_cons.mp hn).1
      have hzero : xs.countP (fun k => decide (a = k)) = 0 := by
        rw [List.countP_eq_zero]
        intro b hb hab
        exact hx ((of_decide_eq_true hab) ▸ hb)
      simp [hzero]
    · have hone := ih (List.nodup_cons.mp hn).2 h
      have hax : a ≠ x := fun he => (List.nodup_cons.mp hn).1 (he ▸ h)
      simp [hone, hax]

/-! ## Claim theorems -/

/-- Claim C1 (code_bug evaluation).  On a two-session dataset with
train_phase = ["enc"] and test_phase = ["rec"], fold 0 of
`make_cross_val_labels` marks, as training data, the session-1 "rec" event
(index 3) and NOT the session-1 "enc" event (index 2): the source builds
`valid_train_inds` from `self.test_phase` (classify.py line 267), while the
claim — and the function's own docstring — require the train mask to be
(fold-key ≠ k) AND (phase ∈ train-phases), which here is the mask
`spec_train_mask` computes. -/
theorem c1_planner_train_mask_uses_test_phase :
    ((make_cross_val_labels "CHEST" "REC" ["enc"] ["rec"]
        [Event.mk 0 0 "CHEST", Event.mk 0 0 "REC",
         Event.mk 1 0 "CHEST", Event.mk 1 0 "REC"]).headD
        (0, FoldMasks.mk [] [] [] [])).2.train_bool = [false, false, false, true]
    ∧ spec_train_mask ["enc"] [0, 0, 1, 1] ["enc", "rec", "enc", "rec"] 0
        = [false, false, true, false]
    ∧ ([false, false, false, true] : List Bool) ≠ [false, false, true, false] := by
  decide

/-- Claim C3 (code_bug evaluation).  One fold with train events of phases
["rec", "enc"] and test events of phases ["enc", "rec"], train and test phase
configuration both ["enc", "rec"], one feature per event, and the scipy
externals instantiated with identity maps so values stay recognizable.  The
"enc" test row (value 10, test index 0) is written to test row 1 — the
position selected by `task_phase_train == "enc"` (classify.py line 809) — and
the "rec" test row (value 20) to test row 0, so the normalized values do NOT
land on the test events of their own phase ([[10], [20]]). -/
theorem c3_test_normalization_landing_bug :
    normalize_fold_features (fun m => m) (fun m _ => m) ["enc", "rec"] ["enc", "rec"]
      [[30], [40]] [[10], [20]] ["rec", "enc"] ["enc", "rec"]
      = ([[30], [40]], [[20], [10]])
    ∧ ([[20], [10]] : List (List ℚ)) ≠ [[10], [20]] := by
  exact ⟨by decide, by decide⟩

theorem npMax_pair (a b : ℚ) : npMax [a, b] = max a b := rfl

/-- Claim C2 (counterexample).  For the fold × candidate AUC table
[[9/10, 1/2], [2/5, 4/5]] the per-candidate means are both 13/20 (global best:
candidate 0).  The source's bias (classify.py line 845) is the mean of
(fold max − fold value at the global best) = 1/5, giving AUC 9/20; the claim's
literal formula — subtract the fold's best from the fold's AUC at the overall
best — gives bias −1/5 and AUC 17/20.  The code therefore does not compute the
claim's formula. -/
theorem c2_bias_direction_counterexample :
    biasOf [[9/10, 1/2], [2/5, 4/5]] = 1/5
    ∧ bias_claimed [[9/10, 1/2], [2/5, 4/5]] = -(1/5)
    ∧ biasOf [[9/10, 1/2], [2/5, 4/5]] ≠ bias_claimed [[9/10, 1/2], [2/5, 4/5]]
    ∧ aucLosoOf [[9/10, 1/2], [2/5, 4/5]] = 9/20
    ∧ auc_claimed [[9/10, 1/2], [2/5, 4/5]] = 17/20
    ∧ aucLosoOf [[9/10, 1/2], [2/5, 4/5]] ≠ auc_claimed [[9/10, 1/2], [2/5, 4/5]] := by
  have h1 : aucsOf [[9/10, 1/2], [2/5, 4/5]] = [13/20, 13/20] := by
    simp [aucsOf, npMeanQ, List.range_succ]
    norm_num
  have h2 : npMax (aucsOf [[9/10, 1/2], [2/5, 4/5]]) = 13/20 := by
    rw [h1, npMax_pair, max_self]
  have h3 : npArgmax (aucsOf [[9/10, 1/2], [2/5, 4/5]]) = 0 := by
    rw [h1]
    have h : (13:ℚ)/20 = npMax [(13:ℚ)/20, 13/20] := by rw [npMax_pair, max_self]
    simp [npArgmax, List.findIdx_cons, decide_eq_true h]
  have hm1 : npMax [(9:ℚ)/10, 1/2] = 9/10 := by
    rw [npMax_pair]; exact max_eq_left (by norm_num)
  have hm2 : npMax [(2:ℚ)/5, 4/5] = 4/5 := by
    rw [npMax_pair]; exact max_eq_right (by norm_num)
  have hbias : biasOf [[9/10, 1/2], [2/5, 4/5]] = 1/5 := by
    simp only [biasOf, h3, List.map_cons, List.map_nil, List.getD_cons_zero]
    rw [hm1, hm2]
    simp [npMeanQ]
    norm_num
  have hbc : bias_claimed [[9/10, 1/2], [2/5, 4/5]] = -(1/5) := by
    simp only [bias_claimed, h3, List.map_cons, List.map_nil, List.getD_cons_zero]
    rw [hm1, hm2]
    simp [npMeanQ]
    norm_num
  refine ⟨hbias, hbc, by rw [hbias, hbc]; norm_num, ?_, ?_, ?_⟩
  · rw [aucLosoOf, h2, hbias]; norm_num
  · rw [auc_claimed, h2, hbc]; norm_num
  · rw [aucLosoOf, auc_claimed, h2, hbias, hbc]; norm_num

/-- Claim C8 (counterexample).  A training fold with three not-recalled and one
recalled event contains at least one event of each class, yet the per-event
observation weights [1/2, 1/2, 1/2, 3/2] of classify.py line 831 have mean
3/4, not 1: it is the per-class weight vector, not the per-event weight list,
that is normalized to mean 1. -/
theorem c8_event_weight_mean_counterexample :
    (([0, 0, 0, 1] : List Nat).count 0 ≠ 0 ∧ ([0, 0, 0, 1] : List Nat).count 1 ≠ 0)
    ∧ fold_weights none ["enc"] [0, 0, 0, 1] = [1/2, 1/2, 1/2, 3/2]
    ∧ npMeanQ (fold_weights none ["enc"] [0, 0, 0, 1]) = 3/4
    ∧ npMeanQ (fold_weights none ["enc"] [0, 0, 0, 1]) ≠ 1 := by
  have hb : np_bincount [0, 0, 0, 1] = [3, 1] := by decide
  have hv : recip_freq_vec none ["enc"] [0, 0, 0, 1] = [1/2, 3/2] := by
    simp [recip_freq_vec, hb, npMeanQ]
    norm_num
  have hw : fold_weights none ["enc"] [0, 0, 0, 1] = [1/2, 1/2, 1/2, 3/2] := by
    simp [fold_weights, hv]
  have hmean : npMeanQ (fold_weights none ["enc"] [0, 0, 0, 1]) = 3/4 := by
    rw [hw]; simp [npMeanQ]; norm_num
  exact ⟨⟨by decide, by decide⟩, hw, hmean, by rw [hmean]; norm_num⟩

theorem euclid_dist_sq_comm (p q : ℚ × ℚ × ℚ) : euclid_dist_sq p q = euclid_dist_sq q p := by
  unfold euclid_dist_sq; ring

theorem euclid_dist_sq_self (p : ℚ × ℚ × ℚ) : euclid_dist_sq p p = 0 := by
  unfold euclid_dist_sq; ring

/-- Claim C4 (confirmed).  For every coordinate list and distance threshold,
entry (i, j) of the adjacency matrix holds iff the euclidean distance between
electrodes i and j is strictly between 0 and the threshold (so electrodes at
exactly the threshold distance are excluded); the matrix is symmetric and its
diagonal is false. -/
theorem c4_adjacency_matrix_characterization
    (xyz : List (ℚ × ℚ × ℚ)) (d : ℚ) (i j : Nat) :
    (near_adj_matr xyz d i j ↔
      0 < Real.sqrt ((euclid_dist_sq (xyz.getD i (0, 0, 0)) (xyz.getD j (0, 0, 0)) : ℚ) : ℝ)
      ∧ Real.sqrt ((euclid_dist_sq (xyz.getD i (0, 0, 0)) (xyz.getD j (0, 0, 0)) : ℚ) : ℝ)
          < (d : ℝ))
    ∧ (near_adj_matr xyz d i j ↔ near_adj_matr xyz d j i)
    ∧ ¬ near_adj_matr xyz d i i := by
  refine ⟨⟨fun h => ⟨h.2, h.1⟩, fun h => ⟨h.2, h.1⟩⟩, ?_, ?_⟩
  · unfold near_adj_matr
    rw [euclid_dist_sq_comm]
  · unfold near_adj_matr
    rw [euclid_dist_sq_self]
    simp

/-- Claim C6 (confirmed).  For every non-empty rectangular fold × candidate AUC
table with at least one candidate, the bias-corrected AUC computed at
classify.py lines 844-846 is at most the uncorrected maximum over candidates
of the fold-mean AUC: the bias term is a mean of per-fold gaps
(fold maximum − fold value at the overall best candidate), each of which is
non-negative. -/
theorem c6_bias_corrected_auc_le_max_mean (t : List (List ℚ))
    (hc : 0 < (t.headD []).length)
    (hrect : ∀ row ∈ t, row.length = (t.headD []).length) :
    aucLosoOf t ≤ npMax (aucsOf t) := by
  have hlen : (aucsOf t).length = (t.headD []).length := by simp [aucsOf]
  have hane : aucsOf t ≠ [] := by
    intro h
    rw [h] at hlen
    simp only [List.length_nil] at hlen
    omega
  have hj := (npArgmax_spec hane).1
  rw [hlen] at hj
  have hbias : 0 ≤ biasOf t := by
    apply npMeanQ_nonneg
    intro x hx
    rw [List.mem_map] at hx
    obtain ⟨row, hrow, hxe⟩ := hx
    rw [← hxe]
    have hjr : npArgmax (aucsOf t) < row.length := by
      rw [hrect row hrow]; exact hj
    have hmem : row.getD (npArgmax (aucsOf t)) 0 ∈ row := getD_mem row _ 0 hjr
    have hle := le_npMax_of_mem hmem
    linarith
  have : aucLosoOf t = npMax (aucsOf t) - biasOf t := rfl
  linarith

/-- Witness for C6 at the concrete table [[1/2, 3/5], [7/10, 2/5]]. -/
theorem c6_bias_corrected_auc_le_max_mean_witness :
    (0 < (([[1/2, 3/5], [7/10, 2/5]] : List (List ℚ)).headD []).length
     ∧ ∀ row ∈ ([[1/2, 3/5], [7/10, 2/5]] : List (List ℚ)),
         row.length = (([[1/2, 3/5], [7/10, 2/5]] : List (List ℚ)).headD []).length)
    ∧ aucLosoOf [[1/2, 3/5], [7/10, 2/5]] ≤ npMax (aucsOf [[1/2, 3/5], [7/10, 2/5]]) :=
  ⟨⟨by decide, by decide⟩,
   c6_bias_corrected_auc_le_max_mean [[1/2, 3/5], [7/10, 2/5]] (by decide) (by decide)⟩

/-- Claim C2 (amended).  For every AUC table with at least one candidate there
is an overall best candidate index `jstar` — an index at which the
per-candidate fold-mean AUC attains its maximum — such that the bias of
classify.py line 845 is the average over folds of (that fold's best candidate
AUC minus the fold's AUC at `jstar`), and the final AUC of line 846 is the
maximum fold-mean AUC minus that average.  This is the claim with the
subtraction direction reversed: fold best minus fold-at-overall-best, not the
other way around. -/
theorem c2_bias_corrected_auc_amended (t : List (List ℚ))
    (hc : 0 < (t.headD []).length) :
    ∃ jstar, jstar < (aucsOf t).length
      ∧ (aucsOf t).getD jstar 0 = npMax (aucsOf t)
      ∧ biasOf t = npMeanQ (t.map (fun row => npMax row - row.getD jstar 0))
      ∧ aucLosoOf t = npMax (aucsOf t)
          - npMeanQ (t.map (fun row => npMax row - row.getD jstar 0)) := by
  have hlen : (aucsOf t).length = (t.headD []).length := by simp [aucsOf]
  have hane : aucsOf t ≠ [] := by
    intro h
    rw [h] at hlen
    simp only [List.length_nil] at hlen
    omega
  exact ⟨npArgmax (aucsOf t), (npArgmax_spec hane).1, (npArgmax_spec hane).2, rfl, rfl⟩

/-- Witness for the amended C2 at the concrete table [[9/10, 1/2], [2/5, 4/5]]. -/
theorem c2_bias_corrected_auc_amended_witness :
    0 < (([[9/10, 1/2], [2/5, 4/5]] : List (List ℚ)).headD []).length
    ∧ ∃ jstar, jstar < (aucsOf [[9/10, 1/2], [2/5, 4/5]]).length
      ∧ (aucsOf [[9/10, 1/2], [2/5, 4/5]]).getD jstar 0
          = npMax (aucsOf [[9/10, 1/2], [2/5, 4/5]])
      ∧ biasOf [[9/10, 1/2], [2/5, 4/5]]
          = npMeanQ (([[9/10, 1/2], [2/5, 4/5]] : List (List ℚ)).map
              (fun row => npMax row - row.getD jstar 0))
      ∧ aucLosoOf [[9/10, 1/2], [2/5, 4/5]]
          = npMax (aucsOf [[9/10, 1/2], [2/5, 4/5]])
            - npMeanQ (([[9/10, 1/2], [2/5, 4/5]] : List (List ℚ)).map
                (fun row => npMax row - row.getD jstar 0)) :=
  ⟨by decide, c2_bias_corrected_auc_amended [[9/10, 1/2], [2/5, 4/5]] (by decide)⟩

/-- Claim C8 (amended).  For every non-empty training fold in which every class
in 0..max occurs at least once (so `np.bincount` has no zero entry), the
per-CLASS weight vector built at classify.py lines 824-825 — reciprocal class
counts divided by their own mean — has mean exactly 1 (exact arithmetic; the
source computes in floating point).  The per-event weights `recip_freq[y_ind]`
need not have mean 1 (see the counterexample). -/
theorem c8_class_weight_vector_mean_one (train_ph : List String) (y_ind : List Nat)
    (hne : y_ind ≠ []) (hpos : ∀ c ∈ np_bincount y_ind, 0 < c) :
    npMeanQ (recip_freq_vec none train_ph y_ind) = 1 := by
  have hbne : np_bincount y_ind ≠ [] := by
    unfold np_bincount
    rw [if_neg (by simpa [List.isEmpty_iff] using hne)]
    simp
  have hr0ne : (np_bincount y_ind).map (fun (c : ℕ) => (1 : ℚ) / (c : ℚ)) ≠ [] :=
    fun h => hbne (List.map_eq_nil_iff.mp h)
  have hr0pos : ∀ x ∈ (np_bincount y_ind).map (fun (c : ℕ) => (1 : ℚ) / (c : ℚ)), 0 < x := by
    intro x hx
    rw [List.mem_map] at hx
    obtain ⟨c, hcm, rfl⟩ := hx
    exact one_div_pos.mpr (by exact_mod_cast hpos c hcm)
  have hmpos := npMeanQ_pos hr0pos hr0ne
  simp only [recip_freq_vec, Option.isSome_none, Bool.and_false, Bool.false_eq_true,
    if_false]
  rw [npMeanQ_map_div]
  exact div_self (ne_of_gt hmpos)

/-- Witness for the amended C8 with the balanced fold [0, 1]. -/
theorem c8_class_weight_vector_mean_one_witness :
    (([0, 1] : List Nat) ≠ [] ∧ ∀ c ∈ np_bincount [0, 1], 0 < c)
    ∧ npMeanQ (recip_freq_vec none ["enc"] [0, 1]) = 1 :=
  ⟨⟨by decide, by decide⟩,
   c8_class_weight_vector_mean_one ["enc"] [0, 1] (by decide) (by decide)⟩

/-- Claim C7 (confirmed).  With single-session data and more than one candidate
regularization value, `SubjectClassifier.classify` reports the configuration
error and returns without raising (classify.py lines 291-294, modelled by the
error result of `classify_guard`); independently, single-session runs of
`ClassifyTH.compute_classifier` revert to the single default regularization
value with leave-one-session-out mode off (lines 776-780), and in that mode
the final AUC is `roc_auc_score` on the pooled held-out probabilities, with no
bias subtraction (line 848). -/
theorem c7_single_session_multi_C_rejected
    (cvd : List (Nat × FoldMasks)) (sessions : List Nat) (C : List ℚ)
    (rocAucF : List Bool → List ℚ → ℚ) (fold_aucs : List (List ℚ))
    (recalls : List Bool) (test_bool : List Bool) (probs_col : List ℚ)
    (hcvd : cvd ≠ []) (hs : (npUnique sessions).length = 1) (hC : 1 < C.length) :
    classify_guard cvd sessions C
      = Except.error "Multiple C values cannot be tested for a subject with only one session of data."
    ∧ select_Cs C sessions = (default_C, false)
    ∧ final_auc rocAucF false fold_aucs recalls test_bool probs_col
        = rocAucF (maskSelect test_bool recalls) (maskSelect test_bool probs_col) := by
  refine ⟨?_, ?_, rfl⟩
  · unfold classify_guard
    rw [if_neg (by simpa [List.isEmpty_iff] using hcvd), if_pos (by simp [hs, hC])]
  · unfold select_Cs
    rw [if_pos hs]

/-- Witness for C7: one session, two candidate values. -/
theorem c7_single_session_multi_C_rejected_witness :
    (([(0, FoldMasks.mk [] [] [] [])] : List (Nat × FoldMasks)) ≠ []
     ∧ (npUnique [0]).length = 1 ∧ 1 < ([1, 2] : List ℚ).length)
    ∧ classify_guard [(0, FoldMasks.mk [] [] [] [])] [0] [1, 2]
        = Except.error "Multiple C values cannot be tested for a subject with only one session of data."
    ∧ select_Cs [1, 2] [0] = (default_C, false)
    ∧ final_auc (fun _ _ => 0) false [] [] [] []
        = (fun (_ : List Bool) (_ : List ℚ) => (0 : ℚ)) (maskSelect [] []) (maskSelect [] []) := by
  refine ⟨⟨by decide, by decide, by decide⟩, ?_⟩
  exact c7_single_session_multi_C_rejected [(0, FoldMasks.mk [] [] [] [])] [0] [1, 2]
    (fun _ _ => 0) [] [] [] [] (by decide) (by decide) (by decide)

theorem countP_map {α β : Type} (p : β → Bool) (f : α → β) :
    ∀ l : List α, (l.map f).countP p = l.countP (fun a => p (f a)) := by
  intro l
  induction l with
  | nil => simp
  | cons x xs ih => simp [List.countP_cons, ih]

theorem getD_eq_get {α : Type} :
    ∀ (l : List α) (i : Nat) (d : α) (h : i < l.length), l.getD i d = l.get ⟨i, h⟩ := by
  intro l
  induction l with
  | nil => intro i d h; simp at h
  | cons x xs ih =>
    intro i d h
    cases i with
    | zero => rfl
    | succ n => simpa using ih n d (by simpa using h)

theorem zip_and_masks_false (k : Nat) :
    ∀ (folds : List Nat) (vt vte : List Bool),
      (List.zipWith and
        (List.zipWith (fun f v => decide (f ≠ k) && v) folds vt)
        (List.zipWith (fun f v => decide (f = k) && v) folds vte)).all (fun b => !b) = true := by
  intro folds
  induction folds with
  | nil => intro vt vte; rfl
  | cons f fs ih =>
    intro vt vte
    cases vt with
    | nil => rfl
    | cons v vs =>
      cases vte with
      | nil => rfl
      | cons w ws =>
        simp only [List.zipWith_cons_cons, List.all_cons, Bool.and_eq_true]
        refine ⟨?_, ih vs ws⟩
        by_cases h : f = k
        · simp [h]
        · simp [h]

theorem countP_test_mask (folds : List Nat) (vte : List Bool) (i : Nat)
    (hif : i < folds.length) (hiv : i < vte.length) :
    (npUnique folds).countP
      (fun k => (List.zipWith (fun f v => decide (f = k) && v) folds vte).getD i false)
      = if vte.getD i false then 1 else 0 := by
  have hg : (fun k => (List.zipWith (fun f v => decide (f = k) && v) folds vte).getD i false)
      = (fun k => decide (folds.getD i 0 = k) && vte.getD i false) := by
    funext k
    exact getD_zipWith _ folds vte i false 0 false hif hiv
  rw [hg]
  cases hv : vte.getD i false with
  | false => simp
  | true =>
    simp only [Bool.and_true]
    simpa using countP_eq_one_self (npUnique_nodup folds)
      (mem_npUnique.mpr (getD_mem folds i 0 hif))

/-- Claim C9 (confirmed).  For every dataset and phase configuration: (a) in
every fold of `make_cross_val_labels` the train mask and the test mask are
pointwise disjoint (classify.py lines 276-277: an event would need fold ≠ k and
fold = k simultaneously); (b) every event whose relabeled phase is in the test
phases lands in the test mask of exactly one fold — the fold of its own key —
and events outside the test phases land in none, so the test masks partition
the valid-test-phase event set.  This holds whether the folds are keyed by
session (multi-session) or by trial (single-session). -/
theorem c9_fold_masks_disjoint_and_partition
    (enc_str rec_str : String) (train_ph test_ph : List String) (events : List Event) :
    ((make_cross_val_labels enc_str rec_str train_ph test_ph events).all
      (fun kv => (List.zipWith and kv.2.train_bool kv.2.test_bool).all (fun b => !b)) = true)
    ∧ ∀ i : Fin events.length,
        (make_cross_val_labels enc_str rec_str train_ph test_ph events).countP
            (fun kv => kv.2.test_bool.getD i.val false)
          = if relabel enc_str rec_str (events.get i).etype ∈ test_ph then 1 else 0 := by
  constructor
  · rw [List.all_eq_true]
    intro kv hkv
    simp only [make_cross_val_labels, List.mem_map] at hkv
    obtain ⟨k, hk, rfl⟩ := hkv
    exact zip_and_masks_false k _ _ _
  · intro i
    have hfl : (if 1 < (npUnique (events.map Event.session)).length
                then events.map Event.session else events.map Event.trial).length
        = events.length := by
      split <;> simp
    have hstep1 : (make_cross_val_labels enc_str rec_str train_ph test_ph events).countP
          (fun kv => kv.2.test_bool.getD i.val false)
        = (npUnique (if 1 < (npUnique (events.map Event.session)).length
                     then events.map Event.session else events.map Event.trial)).countP
            (fun k => (List.zipWith (fun f v => decide (f = k) && v)
                (if 1 < (npUnique (events.map Event.session)).length
                 then events.map Event.session else events.map Event.trial)
                (((events.map (fun e => relabel enc_str rec_str e.etype)).map
                  (fun x => decide (x ∈ test_ph))))).getD i.val false) :=
      countP_map _ _ _
    have hstep2 := countP_test_mask
      (if 1 < (npUnique (events.map Event.session)).length
       then events.map Event.session else events.map Event.trial)
      ((events.map (fun e => relabel enc_str rec_str e.etype)).map
        (fun x => decide (x ∈ test_ph)))
      i.val (by rw [hfl]; exact i.isLt) (by simp)
    have hvv : ((events.map (fun e => relabel enc_str rec_str e.etype)).map
          (fun x => decide (x ∈ test_ph))).getD i.val false
        = decide (relabel enc_str rec_str ((events.get i).etype) ∈ test_ph) := by
      rw [getD_map _ _ i.val false "" (by simp)]
      congr 1
      rw [getD_map _ events i.val "" (Event.mk 0 0 "") i.isLt]
      rw [getD_eq_get events i.val _ i.isLt]
    rw [hstep1, hstep2, hvv]
    simp

theorem foldl_feat_mat {α : Type} (g : α → ClassifierState → ClassifierState)
    (hg : ∀ a s, (g a s).feat_mat = s.feat_mat) :
    ∀ (l : List α) (s : ClassifierState),
      ((l.foldl (fun s a => g a s) s)).feat_mat = s.feat_mat := by
  intro l
  induction l with
  | nil => intro s; rfl
  | cons x xs ih =>
    intro s
    rw [List.foldl_cons, ih (g x s), hg x s]

/-- Claim C10 (confirmed).  The shared feature matrix is never written by the
per-fold processing: the fold body of `ClassifyTH.compute_classifier` only
reads `feat_mat` (its boolean-mask selections are numpy copies, and the
normalized features go into the fresh buffers of `normalize_fold_features`),
so the feature matrix after one fold body — and after the entire
candidate × fold double loop — is unchanged, for every candidate value, fold
order and initial state. -/
theorem c10_feature_matrix_not_mutated
    (zscoreF : List (List ℚ) → List (List ℚ))
    (zmapF : List (List ℚ) → List (List ℚ) → List (List ℚ))
    (fitPredictF : ℚ → List (List ℚ) → List Bool → List ℚ → List (List ℚ) → List ℚ)
    (rocAucF : List Bool → List ℚ → ℚ)
    (scale_enc : Option ℚ) (train_phase test_phase : List String)
    (recalls : List Bool) (cv_sel : List Nat) (task_phase : List String)
    (loso : Bool) (Cs : List ℚ) (uniq_cv : List Nat) (st : ClassifierState) :
    (∀ (c : ℚ) (c_num cv_num cv : Nat) (st0 : ClassifierState),
      (fold_body zscoreF zmapF fitPredictF rocAucF scale_enc train_phase test_phase
        recalls cv_sel task_phase loso c c_num cv_num cv st0).feat_mat = st0.feat_mat)
    ∧ (run_candidate_loop zscoreF zmapF fitPredictF rocAucF scale_enc train_phase
        test_phase recalls cv_sel task_phase loso Cs uniq_cv st).feat_mat = st.feat_mat := by
  constructor
  · intro c c_num cv_num cv st0
    rfl
  · show (Cs.enum.foldl (fun s1 p => uniq_cv.enum.foldl (fun s2 q =>
        fold_body zscoreF zmapF fitPredictF rocAucF scale_enc train_phase test_phase
          recalls cv_sel task_phase loso p.2 p.1 q.1 q.2 s2) s1) st).feat_mat = st.feat_mat
    exact foldl_feat_mat
      (fun p s1 => uniq_cv.enum.foldl (fun s2 q =>
        fold_body zscoreF zmapF fitPredictF rocAucF scale_enc train_phase test_phase
          recalls cv_sel task_phase loso p.2 p.1 q.1 q.2 s2) s1)
      (fun p s1 => foldl_feat_mat
        (fun q s2 => fold_body zscoreF zmapF fitPredictF rocAucF scale_enc train_phase
          test_phase recalls cv_sel task_phase loso p.2 p.1 q.1 q.2 s2)
        (fun q s2 => rfl) uniq_cv.enum s1)
      Cs.enum st

/-- Claim C5 (confirmed).  For every peak matrix, adjacency matrix, allow-mask,
minimum cluster size (and any behavior of the external tarjan decomposition):
every entry of `find_clusters_from_peaks` has a non-empty cluster list whose
clusters all have at least `min_num_elecs` members, and every window-center
entry of the unfiltered dictionary that retained at least one cluster is kept
in the output — so the output keys are exactly the center frequencies that
retained a cluster. -/
theorem c5_cluster_min_size_and_nonempty_keys
    (tarjanF : List (List Nat) → List (List Nat))
    (peaks : List (List Bool)) (adj : List (List Bool)) (allowed : List Bool)
    (min_num_elecs : Nat) (freqs : List ℚ) (cluster_freq_range : ℚ) :
    ((find_clusters_from_peaks tarjanF peaks adj allowed min_num_elecs freqs
        cluster_freq_range).all
      (fun kv => !kv.2.elecs.isEmpty
        && kv.2.elecs.all (fun cl => decide (min_num_elecs ≤ cl.length))) = true)
    ∧ ((all_clusters_unfiltered tarjanF peaks adj allowed min_num_elecs freqs
        cluster_freq_range).all
      (fun kv => kv.2.elecs.isEmpty
        || decide (kv ∈ find_clusters_from_peaks tarjanF peaks adj allowed min_num_elecs
            freqs cluster_freq_range)) = true) := by
  constructor
  · rw [List.all_eq_true]
    intro kv hkv
    unfold find_clusters_from_peaks at hkv
    rw [List.mem_filter] at hkv
    obtain ⟨hmem, hne⟩ := hkv
    rw [Bool.and_eq_true]
    refine ⟨hne, ?_⟩
    rw [List.all_eq_true]
    intro cl hcl
    simp only [all_clusters_unfiltered, List.mem_map] at hmem
    obtain ⟨w, hw, hkv2⟩ := hmem
    rw [← hkv2] at hcl
    by_cases hpf : w ∈ my_local_max
        ((binned_peaks peaks allowed freqs cluster_freq_range).map (fun row => row.count true))
    · rw [if_pos hpf] at hcl
      have hcl2 : cl ∈ good_clusters_at tarjanF peaks adj allowed min_num_elecs freqs
          cluster_freq_range w := hcl
      simp only [good_clusters_at] at hcl2
      rw [List.mem_filter] at hcl2
      exact decide_eq_true (of_decide_eq_true hcl2.2)
    · rw [if_neg hpf] at hcl
      simp at hcl
  · rw [List.all_eq_true]
    intro kv hkv
    rw [Bool.or_eq_true]
    by_cases he : kv.2.elecs.isEmpty = true
    · exact Or.inl he
    · refine Or.inr (decide_eq_true ?_)
      unfold find_clusters_from_peaks
      rw [List.mem_filter]
      exact ⟨hkv, by simpa using he⟩
